import Mathlib

/-!
Verification development for the chrome-capture-for-kayo server (src/main.js).

The file shallowly embeds the parts of `main.js` that the checked properties
talk about: the per-session idempotent cleanup closure of
`handleChannelStream` / `handleGenericStream`, the admission controller
(`waitForStreamSlot` / `notifyStreamSlot` plus the callers' increment and the
cleanup decrement), the pipeline stage order of both stream handlers, the DOM
tile-click channel resolver (`tileClickDirectStrategy`), the HTTP routing for
`/stream/:channelName`, the ffmpeg exit handler of `spawnMpegTsTranscoder`,
and the `/lineup.json` and `/playlist.m3u` generators.

Concurrency is modelled at event-loop granularity: JavaScript runs a session's
code atomically between `await` suspension points, so each synchronous block
of the source becomes one atomic transition of a state machine, and arbitrary
interleavings of those transitions across sessions are quantified over.
-/

namespace CC4C

/-- Capacity of the admission controller (`MAX_CONCURRENT_STREAMS`,
src/main.js line 326). -/
def MAX_CONCURRENT_STREAMS : Nat := 2

/-- Wait budget in milliseconds for a queued admission request
(`QUEUE_WAIT_MS`, src/main.js line 327). -/
def QUEUE_WAIT_MS : Nat := 5000

/-! ## Session cleanup (src/main.js lines 942-964 and 1140-1158)

The cleanup closure of a stream session.  Its body is guarded by the
`cleanup._done` flag; the flag is checked and set synchronously at the top of
the closure, before any `await`, so in the cooperative event loop the whole
resource-releasing block (subprocess kill, stream destroy, guarded
decrement + `notifyStreamSlot`, page release) runs atomically with respect to
other invocations of the same closure.  We model one invocation as one state
transition, with counters recording how often each effect has run. -/

/-- Session-local state seen by the cleanup closure.  `counted` is
`cleanup._countedStream`; `ffmpeg`, `stream`, `page` record whether the
corresponding handle is non-null; `active` is the global `activeStreams`
counter; the remaining fields count how many times each releasing effect has
executed. -/
structure CleanSt where
  done : Bool
  counted : Bool
  ffmpeg : Bool
  stream : Bool
  page : Bool
  active : Int
  ffmpegKills : Nat
  streamDestroys : Nat
  pageCloses : Nat
  notifies : Nat
deriving DecidableEq

/-- One invocation of the cleanup closure (src/main.js lines 942-958):
return immediately when `_done` is set, otherwise set it and run the body:
kill the transcoder if spawned, destroy the capture stream if opened, and if
`_countedStream` then clear it, decrement `activeStreams` when positive and
call `notifyStreamSlot`, finally release the page (counted only when a page
was acquired, since `releasePage` is a no-op on `null`). -/
def cleanup (s : CleanSt) : CleanSt :=
  if s.done then s
  else
    { s with
      done := true
      counted := false
      ffmpegKills := if s.ffmpeg then s.ffmpegKills + 1 else s.ffmpegKills
      streamDestroys := if s.stream then s.streamDestroys + 1 else s.streamDestroys
      active := if s.counted then (if 0 < s.active then s.active - 1 else s.active)
                else s.active
      notifies := if s.counted then s.notifies + 1 else s.notifies
      pageCloses := if s.page then s.pageCloses + 1 else s.pageCloses }

theorem cleanup_done (s : CleanSt) : (cleanup s).done = true := by
  unfold cleanup
  by_cases h : s.done = true
  · simp [h]
  · simp [h]

theorem cleanup_of_done (s : CleanSt) (h : s.done = true) : cleanup s = s := by
  simp [cleanup, h]

theorem cleanup_iterate (s : CleanSt) (n : Nat) (hn : 1 ≤ n) :
    cleanup^[n] s = cleanup s := by
  induction n with
  | zero => omega
  | succ k ih =>
    rcases Nat.eq_or_lt_of_le hn with h1 | h1
    · simp [← h1]
    · rw [Function.iterate_succ_apply', ih (by omega),
        cleanup_of_done _ (cleanup_done s)]

/-- C1: the cleanup procedure is idempotent per session.  However many times
it is invoked (from request abort, response close or error, capture-stream
error, transcoder error or unexpected exit, or a pipeline-stage failure — all
trigger sources invoke the same closure), its resource-releasing body runs at
most once: the page is closed at most once and, when an admission slot was
held (`_countedStream` set, hence `activeStreams` at least 1), the counter is
decremented exactly once and `notifyStreamSlot` is called exactly once. -/
theorem claim1_cleanup_idempotent (n : Nat) (s0 : CleanSt)
    (hn : 1 ≤ n) (hdone : s0.done = false) (hpc : s0.pageCloses = 0)
    (hnot : s0.notifies = 0) :
    (cleanup^[n] s0).pageCloses ≤ 1 ∧
      (s0.counted = true → 1 ≤ s0.active →
        (cleanup^[n] s0).active = s0.active - 1 ∧ (cleanup^[n] s0).notifies = 1) := by
  rw [cleanup_iterate s0 n hn]
  unfold cleanup
  rw [if_neg (by simp [hdone])]
  refine ⟨?_, ?_⟩
  · by_cases hp : s0.page = true <;> simp [hp, hpc]
  · intro hc ha
    have hpos : 0 < s0.active := by omega
    simp [hc, hnot, hpos]

theorem claim1_cleanup_idempotent_witness :
    (cleanup^[3] ⟨false, true, true, true, true, 2, 0, 0, 0, 0⟩).pageCloses ≤ 1 ∧
      (cleanup^[3] ⟨false, true, true, true, true, 2, 0, 0, 0, 0⟩).active = 1 ∧
      (cleanup^[3] ⟨false, true, true, true, true, 2, 0, 0, 0, 0⟩).notifies = 1 := by
  have h := claim1_cleanup_idempotent 3 ⟨false, true, true, true, true, 2, 0, 0, 0, 0⟩
    (by decide) rfl rfl rfl
  have h2 := h.2 rfl (by decide)
  exact ⟨h.1, by rw [h2.1]; decide, h2.2⟩

/-! ## Admission controller (src/main.js lines 326-356, 1043-1052, 1176-1185)

`waitForStreamSlot` synchronously checks `activeStreams < MAX_CONCURRENT_STREAMS`
and resolves `true` immediately, otherwise pushes a resolver onto `waiters`;
the resolver is either woken by `notifyStreamSlot` (which shifts the queue
head) or removed by its timeout, which resolves `false`.  The caller of
`waitForStreamSlot` performs `activeStreams++` in a separate event-loop turn
(after the `await`), and cleanup performs the guarded decrement followed by
`notifyStreamSlot` in one synchronous block.

Each synchronous block is one atomic transition.  A session is therefore in
one of six phases: about to run the admission check (`beforeCheck`); resolved
`true` with its increment continuation still queued (`pendingInc`); parked in
the waiter queue (`waiting`); holding a slot after its increment (`holding`);
finished releasing (`released`); or timed out, i.e. resolved `false`
(`rejected`).  Queue entries carry an arrival stamp so that FIFO order is
expressible. -/

/-- Phase of one stream session with respect to the admission controller. -/
inductive Phase where
  | beforeCheck
  | pendingInc
  | waiting
  | holding
  | released
  | rejected
deriving DecidableEq

/-- Global admission state: the `activeStreams` counter, the `waiters` queue
(session id paired with an arrival stamp; `waitForStreamSlot` pushes at the
back, `notifyStreamSlot` shifts from the front), a fresh-stamp counter, and
each session's phase. -/
structure AdmSys where
  active : Int
  queue : List (Nat × Nat)
  stamp : Nat
  phases : Nat → Phase

/-- Overwrite the phase of session `i`. -/
def setPhase (s : AdmSys) (i : Nat) (p : Phase) : AdmSys :=
  { s with phases := fun j => if j = i then p else s.phases j }

/-- `notifyStreamSlot` (src/main.js lines 332-337): if any waiter is queued,
shift the earliest one and invoke its resolver, which queues that session's
increment continuation (phase `pendingInc`). -/
def notifyStreamSlot (s : AdmSys) : AdmSys :=
  match s.queue with
  | [] => s
  | w :: rest => { setPhase s w.1 Phase.pendingInc with queue := rest }

/-- The atomic transitions of the admission system, one per synchronous block
of the source.  `check i` is the synchronous body of `waitForStreamSlot`
(lines 339-356); `inc i` is the caller's `activeStreams++` continuation
(line 1050 / 1183); `timeout i` is the waiter's timer callback (lines
343-347), which splices the waiter out and resolves `false`; `release i` is
the counted block of cleanup (lines 950-955): guarded decrement then
`notifyStreamSlot`. -/
inductive AdmAct where
  | check (i : Nat)
  | inc (i : Nat)
  | timeout (i : Nat)
  | release (i : Nat)

/-- One enabled transition; `none` when the action is not enabled in `s`. -/
def admStep (s : AdmSys) : AdmAct → Option AdmSys
  | AdmAct.check i =>
    if s.phases i = Phase.beforeCheck then
      if s.active < (MAX_CONCURRENT_STREAMS : Int) then
        some (setPhase s i Phase.pendingInc)
      else
        some { setPhase s i Phase.waiting with
               queue := s.queue ++ [(i, s.stamp)], stamp := s.stamp + 1 }
    else none
  | AdmAct.inc i =>
    if s.phases i = Phase.pendingInc then
      some { setPhase s i Phase.holding with active := s.active + 1 }
    else none
  | AdmAct.timeout i =>
    if s.phases i = Phase.waiting then
      some { setPhase s i Phase.rejected with
             queue := s.queue.filter (fun p => p.1 != i) }
    else none
  | AdmAct.release i =>
    if s.phases i = Phase.holding then
      some (notifyStreamSlot
        { setPhase s i Phase.released with
          active := if 0 < s.active then s.active - 1 else s.active })
    else none

/-- Run a sequence of transitions; fails if any is not enabled. -/
def admRun (s : AdmSys) : List AdmAct → Option AdmSys
  | [] => some s
  | a :: as =>
    match admStep s a with
    | none => none
    | some s1 => admRun s1 as

/-- Initial admission state for three fresh sessions. -/
def admInit3 : AdmSys :=
  { active := 0, queue := [], stamp := 0, phases := fun _ => Phase.beforeCheck }

/-- An interleaving that the Node event loop permits: three sessions whose
capture stages resolve in the same microtask batch each run the synchronous
check of `waitForStreamSlot` (each sees `activeStreams = 0 < 2`) before any
of their increment continuations run. -/
def overAdmitTrace : List AdmAct :=
  [AdmAct.check 0, AdmAct.check 1, AdmAct.check 2,
   AdmAct.inc 0, AdmAct.inc 1, AdmAct.inc 2]

/-- C2 (refuting evaluation): because the admission check and the caller's
increment are separated by an `await`, three concurrent sessions can all be
admitted, driving `activeStreams` to 3, strictly above the configured
capacity `MAX_CONCURRENT_STREAMS = 2`.  Every step of the exhibited trace is
an enabled transition of the embedded system. -/
theorem claim2_capacity_exceeded :
    (admRun admInit3 overAdmitTrace).map AdmSys.active = some 3 ∧
      ¬ (3 : Int) ≤ (MAX_CONCURRENT_STREAMS : Int) := by
  constructor
  · rfl
  · decide

@[simp]
theorem setPhase_queue (s : AdmSys) (i : Nat) (p : Phase) :
    (setPhase s i p).queue = s.queue := rfl

@[simp]
theorem setPhase_stamp (s : AdmSys) (i : Nat) (p : Phase) :
    (setPhase s i p).stamp = s.stamp := rfl

@[simp]
theorem setPhase_active (s : AdmSys) (i : Nat) (p : Phase) :
    (setPhase s i p).active = s.active := rfl

@[simp]
theorem setPhase_same (s : AdmSys) (i : Nat) (p : Phase) :
    (setPhase s i p).phases i = p := by
  simp [setPhase]

theorem setPhase_ne (s : AdmSys) (i : Nat) (p : Phase) {j : Nat} (h : j ≠ i) :
    (setPhase s i p).phases j = s.phases j := by
  simp [setPhase, h]

/-- Invariant of the admission system: queue stamps are strictly increasing
(arrival order), all stamps are below the fresh-stamp counter, every queued
session is in phase `waiting`, and no session is queued twice. -/
def AdmInv (s : AdmSys) : Prop :=
  s.queue.Pairwise (fun a b => a.2 < b.2) ∧
    (∀ p ∈ s.queue, p.2 < s.stamp) ∧
    (∀ p ∈ s.queue, s.phases p.1 = Phase.waiting) ∧
    (s.queue.map Prod.fst).Nodup

theorem admStep_inv {s s' : AdmSys} {a : AdmAct} (hinv : AdmInv s)
    (hstep : admStep s a = some s') : AdmInv s' := by
  obtain ⟨hpw, hbound, hwait, hnd⟩ := hinv
  cases a with
  | check i =>
    simp only [admStep] at hstep
    split at hstep
    case isTrue hph =>
      have hqi : ∀ p ∈ s.queue, p.1 ≠ i := by
        intro p hp h
        have hw := hwait p hp
        rw [h, hph] at hw
        exact Phase.noConfusion hw
      split at hstep
      case isTrue hact =>
        obtain rfl := Option.some.inj hstep
        exact ⟨hpw, hbound, fun p hp => by
          rw [setPhase_ne s i Phase.pendingInc (hqi p hp)]; exact hwait p hp, hnd⟩
      case isFalse hact =>
        obtain rfl := Option.some.inj hstep
        refine ⟨?_, ?_, ?_, ?_⟩
        · refine List.pairwise_append.mpr ⟨hpw, by simp, ?_⟩
          intro a ha b hb
          simp only [List.mem_singleton] at hb
          subst hb
          exact hbound a ha
        · intro p hp
          rcases List.mem_append.mp hp with h | h
          · exact Nat.lt_trans (hbound p h) (Nat.lt_succ_self _)
          · simp only [List.mem_singleton] at h
            subst h
            exact Nat.lt_succ_self _
        · intro p hp
          rcases List.mem_append.mp hp with h | h
          · by_cases hpi : p.1 = i
            · rw [hpi]
              exact setPhase_same s i Phase.waiting
            · rw [setPhase_ne s i Phase.waiting hpi]
              exact hwait p h
          · simp only [List.mem_singleton] at h
            subst h
            exact setPhase_same s i Phase.waiting
        · rw [List.map_append]
          refine List.Nodup.append hnd (by simp) ?_
          intro x hx hx2
          simp only [List.map_cons, List.map_nil, List.mem_singleton] at hx2
          subst hx2
          obtain ⟨p, hp, hpx⟩ := List.mem_map.mp hx
          exact hqi p hp hpx
    case isFalse hph => exact Option.noConfusion hstep
  | inc i =>
    simp only [admStep] at hstep
    split at hstep
    case isTrue hph =>
      obtain rfl := Option.some.inj hstep
      have hqi : ∀ p ∈ s.queue, p.1 ≠ i := by
        intro p hp h
        have hw := hwait p hp
        rw [h, hph] at hw
        exact Phase.noConfusion hw
      exact ⟨hpw, hbound, fun p hp => by
        rw [setPhase_ne s i Phase.holding (hqi p hp)]; exact hwait p hp, hnd⟩
    case isFalse hph => exact Option.noConfusion hstep
  | timeout i =>
    simp only [admStep] at hstep
    split at hstep
    case isTrue hph =>
      obtain rfl := Option.some.inj hstep
      refine ⟨?_, ?_, ?_, ?_⟩
      · exact hpw.sublist (List.filter_sublist _)
      · intro p hp
        exact hbound p (List.mem_of_mem_filter hp)
      · intro p hp
        obtain ⟨hmem, hne⟩ := List.mem_filter.mp hp
        have hne2 : p.1 ≠ i := by simpa using hne
        rw [setPhase_ne s i Phase.rejected hne2]
        exact hwait p hmem
      · exact hnd.sublist ((List.filter_sublist _).map Prod.fst)
    case isFalse hph => exact Option.noConfusion hstep
  | release i =>
    simp only [admStep] at hstep
    split at hstep
    case isTrue hph =>
      have hqi : ∀ p ∈ s.queue, p.1 ≠ i := by
        intro p hp h
        have hw := hwait p hp
        rw [h, hph] at hw
        exact Phase.noConfusion hw
      unfold notifyStreamSlot at hstep
      rcases hq : s.queue with _ | ⟨w, rest⟩
      · rw [show ({ setPhase s i Phase.released with
            active := if 0 < s.active then s.active - 1 else s.active } : AdmSys).queue
            = s.queue from rfl, hq] at hstep
        simp only at hstep
        obtain rfl := Option.some.inj hstep
        refine ⟨?_, ?_, ?_, ?_⟩ <;> simp [hq]
      · rw [show ({ setPhase s i Phase.released with
            active := if 0 < s.active then s.active - 1 else s.active } : AdmSys).queue
            = s.queue from rfl, hq] at hstep
        simp only at hstep
        obtain rfl := Option.some.inj hstep
        have hpwq := hq ▸ hpw
        have hndq := hq ▸ hnd
        have hw1 : w.1 ∉ rest.map Prod.fst := by
          simp only [List.map_cons, List.nodup_cons] at hndq
          exact hndq.1
        refine ⟨?_, ?_, ?_, ?_⟩
        · exact (List.pairwise_cons.mp hpwq).2
        · intro p hp
          exact hbound p (by rw [hq]; exact List.mem_cons_of_mem _ hp)
        · intro p hp
          have hpq : p ∈ s.queue := by rw [hq]; exact List.mem_cons_of_mem _ hp
          have hpw1 : p.1 ≠ w.1 := by
            intro h
            exact hw1 (h ▸ List.mem_map_of_mem Prod.fst hp)
          have hstep1 : (setPhase { setPhase s i Phase.released with
              active := if 0 < s.active then s.active - 1 else s.active }
              w.1 Phase.pendingInc).phases p.1 = s.phases p.1 := by
            rw [setPhase_ne _ _ _ hpw1]
            exact setPhase_ne s i Phase.released (hqi p hpq)
          exact hstep1.trans (hwait p hpq)
        · simp only [List.map_cons, List.nodup_cons] at hndq
          exact hndq.2
    case isFalse hph => exact Option.noConfusion hstep

theorem admRun_inv : ∀ (as : List AdmAct) (s s' : AdmSys),
    AdmInv s → admRun s as = some s' → AdmInv s' := by
  intro as
  induction as with
  | nil =>
    intro s s' hinv h
    simp only [admRun] at h
    obtain rfl := Option.some.inj h
    exact hinv
  | cons a rest ih =>
    intro s s' hinv h
    simp only [admRun] at h
    rcases hstep : admStep s a with _ | s1
    · rw [hstep] at h
      exact Option.noConfusion h
    · rw [hstep] at h
      exact ih s1 s' (admStep_inv hinv hstep) h

theorem admStep_rejected {s s' : AdmSys} {a : AdmAct} {i : Nat}
    (hinv : AdmInv s) (hrej : s.phases i = Phase.rejected)
    (hstep : admStep s a = some s') : s'.phases i = Phase.rejected := by
  obtain ⟨hpw, hbound, hwait, hnd⟩ := hinv
  have hof : ∀ j : Nat, s.phases j ≠ Phase.rejected → j ≠ i := by
    intro j hj h
    exact hj (h ▸ hrej)
  cases a with
  | check j =>
    simp only [admStep] at hstep
    split at hstep
    case isTrue hph =>
      have hji : i ≠ j := fun h => by rw [h, hph] at hrej; exact Phase.noConfusion hrej
      split at hstep
      case isTrue hact =>
        obtain rfl := Option.some.inj hstep
        rw [setPhase_ne s j Phase.pendingInc hji]
        exact hrej
      case isFalse hact =>
        obtain rfl := Option.some.inj hstep
        show (setPhase s j Phase.waiting).phases i = Phase.rejected
        rw [setPhase_ne s j Phase.waiting hji]
        exact hrej
    case isFalse hph => exact Option.noConfusion hstep
  | inc j =>
    simp only [admStep] at hstep
    split at hstep
    case isTrue hph =>
      have hji : i ≠ j := fun h => by rw [h, hph] at hrej; exact Phase.noConfusion hrej
      obtain rfl := Option.some.inj hstep
      show (setPhase s j Phase.holding).phases i = Phase.rejected
      rw [setPhase_ne s j Phase.holding hji]
      exact hrej
    case isFalse hph => exact Option.noConfusion hstep
  | timeout j =>
    simp only [admStep] at hstep
    split at hstep
    case isTrue hph =>
      have hji : i ≠ j := fun h => by rw [h, hph] at hrej; exact Phase.noConfusion hrej
      obtain rfl := Option.some.inj hstep
      show (setPhase s j Phase.rejected).phases i = Phase.rejected
      rw [setPhase_ne s j Phase.rejected hji]
      exact hrej
    case isFalse hph => exact Option.noConfusion hstep
  | release j =>
    simp only [admStep] at hstep
    split at hstep
    case isTrue hph =>
      have hji : i ≠ j := fun h => by rw [h, hph] at hrej; exact Phase.noConfusion hrej
      unfold notifyStreamSlot at hstep
      rcases hq : s.queue with _ | ⟨w, rest⟩
      · rw [show ({ setPhase s j Phase.released with
            active := if 0 < s.active then s.active - 1 else s.active } : AdmSys).queue
            = s.queue from rfl, hq] at hstep
        simp only at hstep
        obtain rfl := Option.some.inj hstep
        show (setPhase s j Phase.released).phases i = Phase.rejected
        rw [setPhase_ne s j Phase.released hji]
        exact hrej
      · rw [show ({ setPhase s j Phase.released with
            active := if 0 < s.active then s.active - 1 else s.active } : AdmSys).queue
            = s.queue from rfl, hq] at hstep
        simp only at hstep
        obtain rfl := Option.some.inj hstep
        have hwv : s.phases w.1 = Phase.waiting :=
          hwait w (by rw [hq]; exact List.mem_cons_self _ _)
        have hwi : i ≠ w.1 := by
          intro h
          rw [← h, hrej] at hwv
          exact Phase.noConfusion hwv
        rw [setPhase_ne _ _ _ hwi]
        show (setPhase s j Phase.released).phases i = Phase.rejected
        rw [setPhase_ne s j Phase.released hji]
        exact hrej
    case isFalse hph => exact Option.noConfusion hstep

theorem admRun_rejected : ∀ (as : List AdmAct) (s s' : AdmSys) (i : Nat),
    AdmInv s → s.phases i = Phase.rejected → admRun s as = some s' →
      s'.phases i = Phase.rejected := by
  intro as
  induction as with
  | nil =>
    intro s s' i _ hrej h
    simp only [admRun] at h
    obtain rfl := Option.some.inj h
    exact hrej
  | cons a rest ih =>
    intro s s' i hinv hrej h
    simp only [admRun] at h
    rcases hstep : admStep s a with _ | s1
    · rw [hstep] at h
      exact Option.noConfusion h
    · rw [hstep] at h
      exact ih s1 s' i (admStep_inv hinv hstep)
        (admStep_rejected hinv hrej hstep) h

/-- C3: in every reachable admission state, (a) a slot release wakes exactly
the queue head, which is the earliest still-waiting caller (its arrival stamp
is strictly below every other queued stamp), and every later waiter stays
queued and waiting; and (b) a waiter whose timeout elapses is removed from
the queue, resolves `false` (phase `rejected`, i.e. "not admitted"), and no
subsequent sequence of transitions can ever wake it. -/
theorem claim3_fifo_wake_and_timeout (s0 : AdmSys) (as : List AdmAct) (s : AdmSys)
    (hinv0 : AdmInv s0) (hrun : admRun s0 as = some s) :
    (∀ j w rest s', s.queue = w :: rest →
        admStep s (AdmAct.release j) = some s' →
        s'.phases w.1 = Phase.pendingInc ∧ s'.queue = rest ∧
          ∀ v ∈ rest, w.2 < v.2 ∧ s'.phases v.1 = Phase.waiting) ∧
      (∀ i s', admStep s (AdmAct.timeout i) = some s' →
        (∀ p ∈ s'.queue, p.1 ≠ i) ∧ s'.phases i = Phase.rejected ∧
          ∀ bs s'', admRun s' bs = some s'' →
            s''.phases i = Phase.rejected) := by
  have hinv := admRun_inv as s0 s hinv0 hrun
  obtain ⟨hpw, hbound, hwait, hnd⟩ := hinv
  constructor
  · intro j w rest s' hq hstep
    simp only [admStep] at hstep
    split at hstep
    case isTrue hph =>
      have hqi : ∀ p ∈ s.queue, p.1 ≠ j := by
        intro p hp h
        have hw := hwait p hp
        rw [h, hph] at hw
        exact Phase.noConfusion hw
      unfold notifyStreamSlot at hstep
      rw [show ({ setPhase s j Phase.released with
          active := if 0 < s.active then s.active - 1 else s.active } : AdmSys).queue
          = s.queue from rfl, hq] at hstep
      simp only at hstep
      obtain rfl := Option.some.inj hstep
      have hpwq := hq ▸ hpw
      have hndq := hq ▸ hnd
      have hw1 : w.1 ∉ rest.map Prod.fst := by
        simp only [List.map_cons, List.nodup_cons] at hndq
        exact hndq.1
      refine ⟨?_, rfl, ?_⟩
      · exact setPhase_same _ _ _
      · intro v hv
        have hvq : v ∈ s.queue := by rw [hq]; exact List.mem_cons_of_mem _ hv
        have hvw : v.1 ≠ w.1 := by
          intro h
          exact hw1 (h ▸ List.mem_map_of_mem Prod.fst hv)
        refine ⟨(List.pairwise_cons.mp hpwq).1 v hv, ?_⟩
        show (setPhase _ w.1 Phase.pendingInc).phases v.1 = Phase.waiting
        rw [setPhase_ne _ _ _ hvw]
        show (setPhase s j Phase.released).phases v.1 = Phase.waiting
        rw [setPhase_ne s j Phase.released (hqi v hvq)]
        exact hwait v hvq
    case isFalse hph => exact Option.noConfusion hstep
  · intro i s' hstep
    have hinvs' : AdmInv s' := admStep_inv ⟨hpw, hbound, hwait, hnd⟩ hstep
    simp only [admStep] at hstep
    split at hstep
    case isTrue hph =>
      obtain rfl := Option.some.inj hstep
      refine ⟨?_, ?_, ?_⟩
      · intro p hp
        have := List.mem_filter.mp hp
        simpa using this.2
      · exact setPhase_same _ _ _
      · intro bs s'' hb
        exact admRun_rejected bs _ s'' i hinvs' (setPhase_same _ _ _) hb
    case isFalse hph => exact Option.noConfusion hstep

/-- A concrete admission state: sessions 0 and 1 hold the two slots, sessions
2 and 3 are queued in that arrival order. -/
def admW : AdmSys :=
  { active := 2, queue := [(2, 0), (3, 1)], stamp := 2,
    phases := fun j => if j < 2 then Phase.holding else
      if j < 4 then Phase.waiting else Phase.beforeCheck }

theorem admW_inv : AdmInv admW := by
  refine ⟨?_, ?_, ?_, ?_⟩ <;> simp [admW, List.pairwise_cons]

/-- Phase of queued session 2 after session 0 releases its slot. -/
def admWoken : Option Phase :=
  (admStep admW (AdmAct.release 0)).map fun t => t.phases 2

/-- Phase of queued session 3 after its wait times out. -/
def admTimedOut : Option Phase :=
  (admStep admW (AdmAct.timeout 3)).map fun t => t.phases 3

theorem claim3_fifo_wake_and_timeout_witness :
    admWoken = some Phase.pendingInc ∧ admTimedOut = some Phase.rejected := by
  obtain ⟨s1, hs1⟩ : ∃ x, admStep admW (AdmAct.release 0) = some x := ⟨_, rfl⟩
  obtain ⟨s2, hs2⟩ : ∃ x, admStep admW (AdmAct.timeout 3) = some x := ⟨_, rfl⟩
  have h := claim3_fifo_wake_and_timeout admW [] admW admW_inv rfl
  have h1 := h.1 0 (2, 0) [(3, 1)] s1 rfl hs1
  have h2 := h.2 3 s2 hs2
  unfold admWoken admTimedOut
  rw [hs1, hs2]
  simp only [Option.map_some']
  exact ⟨congrArg some h1.1, congrArg some h2.2.1⟩

/-! ## Pipeline stage order (src/main.js lines 937-1132 and 1134-1240)

Both stream handlers are straight-line async functions: each stage either
succeeds and control falls through to the next stage, or fails and the
handler sends an error response, awaits `cleanup`, and returns.  We embed
each handler as a function from the success/failure outcome of its fallible
stages to the sequence of operations it performs. -/

/-- The operations a stream handler can perform, in source terms:
`acquirePageOp` = `getCurrentBrowser()` + `acquirePage()`; `navigateOp` =
`page.goto` + window setup; `startCaptureOp` = `getStream(page, ...)`;
`waitForSlotOp` = `waitForStreamSlot(QUEUE_WAIT_MS)`; `incrementOp` =
`activeStreams++` with `cleanup._countedStream = true`; `selectChannelOp` =
`selectChannelDirect`; `verifyPlaybackOp` = `waitForSelector('video')` +
playback-position poll; `pipeOp` = header emission and stream piping;
`cleanupOp` = the idempotent cleanup call. -/
inductive Op where
  | acquirePageOp
  | navigateOp
  | startCaptureOp
  | waitForSlotOp
  | incrementOp
  | selectChannelOp
  | verifyPlaybackOp
  | pipeOp
  | cleanupOp
deriving DecidableEq

/-- Outcomes of the fallible stages of `handleChannelStream`. -/
structure ChanEnv where
  pageOk : Bool
  navOk : Bool
  captureOk : Bool
  slotOk : Bool
  selectOk : Bool
  playbackOk : Bool
  pipeOk : Bool

/-- The operation sequence of `handleChannelStream` (src/main.js lines
966-1131): acquire page, navigate, start capture, wait for an admission
slot, increment the active counter, select the channel, verify playback,
pipe; the first failing stage sends an error response and goes directly to
cleanup. -/
def channelOps (e : ChanEnv) : List Op :=
  Op.acquirePageOp ::
    (if !e.pageOk then [Op.cleanupOp] else
      Op.navigateOp ::
        (if !e.navOk then [Op.cleanupOp] else
          Op.startCaptureOp ::
            (if !e.captureOk then [Op.cleanupOp] else
              Op.waitForSlotOp ::
                (if !e.slotOk then [Op.cleanupOp] else
                  Op.incrementOp ::
                    Op.selectChannelOp ::
                      (if !e.selectOk then [Op.cleanupOp] else
                        Op.verifyPlaybackOp ::
                          (if !e.playbackOk then [Op.cleanupOp] else
                            Op.pipeOp ::
                              (if !e.pipeOk then [Op.cleanupOp] else [])))))))

/-- HTTP status sent by `handleChannelStream` for a given outcome vector:
500 on page/navigation/capture/selection/playback/pipe failure, 429 on
admission timeout, 200 on success. -/
def channelStatus (e : ChanEnv) : Nat :=
  if !e.pageOk then 500 else if !e.navOk then 500 else if !e.captureOk then 500
  else if !e.slotOk then 429 else if !e.selectOk then 500
  else if !e.playbackOk then 500 else if !e.pipeOk then 500 else 200

/-- The full stage order of `handleChannelStream` when nothing fails. -/
def allChannelOps : List Op :=
  [Op.acquirePageOp, Op.navigateOp, Op.startCaptureOp, Op.waitForSlotOp,
   Op.incrementOp, Op.selectChannelOp, Op.verifyPlaybackOp, Op.pipeOp]

/-- Number of stages of `allChannelOps` attempted before the handler stops
(all 8 on full success). -/
def channelAttempts (e : ChanEnv) : Nat :=
  if !e.pageOk then 1 else if !e.navOk then 2 else if !e.captureOk then 3
  else if !e.slotOk then 4 else if !e.selectOk then 6
  else if !e.playbackOk then 7 else 8

/-- Whether some stage of `handleChannelStream` failed. -/
def channelFailed (e : ChanEnv) : Bool :=
  !(e.pageOk && e.navOk && e.captureOk && e.slotOk && e.selectOk &&
    e.playbackOk && e.pipeOk)

/-- The C4 property of one outcome vector: the performed operations are a
prefix of the fixed stage order, followed by cleanup exactly when a stage
failed (so there are no backward transitions and no later stage runs after a
failure), and whenever admission is consulted or channel selection runs,
capture was already started earlier in the sequence. -/
def ChannelOrderSpec (e : ChanEnv) : Prop :=
  channelOps e =
      allChannelOps.take (channelAttempts e) ++
        (if channelFailed e then [Op.cleanupOp] else []) ∧
    channelAttempts e ≤ 8 ∧
    (Op.waitForSlotOp ∈ channelOps e →
      (channelOps e).indexOf Op.startCaptureOp <
        (channelOps e).indexOf Op.waitForSlotOp) ∧
    (Op.selectChannelOp ∈ channelOps e →
      (channelOps e).indexOf Op.startCaptureOp <
        (channelOps e).indexOf Op.selectChannelOp)

instance (e : ChanEnv) : Decidable (ChannelOrderSpec e) := by
  unfold ChannelOrderSpec
  infer_instance

/-- C4: for every combination of stage outcomes, `handleChannelStream`
performs its pipeline stages in the strict order acquire page, navigate,
start capture, acquire slot, select channel, verify playback, pipe — capture
starts before admission control is consulted and before channel selection —
and a failure at any stage goes directly to cleanup with no later stage
entered. -/
theorem claim4_pipeline_order :
    ∀ p n c sl se pb pi : Bool,
      ChannelOrderSpec ⟨p, n, c, sl, se, pb, pi⟩ := by
  decide

theorem claim4_pipeline_order_witness :
    (channelOps ⟨true, true, true, true, true, true, true⟩).indexOf
        Op.startCaptureOp <
      (channelOps ⟨true, true, true, true, true, true, true⟩).indexOf
        Op.waitForSlotOp :=
  (claim4_pipeline_order true true true true true true true).2.2.1 (by decide)

/-- Outcomes of the fallible stages of `handleGenericStream`; the first try
block covers page acquisition and navigation together, the last try block
covers capture start and piping together. -/
structure GenEnv where
  pageOk : Bool
  navOk : Bool
  slotOk : Bool
  captureOk : Bool
  pipeOk : Bool

/-- The operation sequence of `handleGenericStream` (src/main.js lines
1164-1239): acquire page, navigate, wait for an admission slot, increment,
start capture, pipe; the first failing stage responds and goes to cleanup.
Note that capture is started only after the admission slot is acquired, and
there is no channel-selection or playback-verification stage. -/
def genericOps (e : GenEnv) : List Op :=
  Op.acquirePageOp ::
    (if !e.pageOk then [Op.cleanupOp] else
      Op.navigateOp ::
        (if !e.navOk then [Op.cleanupOp] else
          Op.waitForSlotOp ::
            (if !e.slotOk then [Op.cleanupOp] else
              Op.incrementOp ::
                Op.startCaptureOp ::
                  (if !e.captureOk then [Op.cleanupOp] else
                    Op.pipeOp ::
                      (if !e.pipeOk then [Op.cleanupOp] else [])))))

/-- HTTP status sent by `handleGenericStream`: 500 on page/navigation
failure, 429 on admission timeout, 500 on capture/pipe failure, else 200. -/
def genericStatus (e : GenEnv) : Nat :=
  if !e.pageOk then 500 else if !e.navOk then 500
  else if !e.slotOk then 429 else if !e.captureOk then 500
  else if !e.pipeOk then 500 else 200

/-- The full stage order of `handleGenericStream` when nothing fails. -/
def allGenericOps : List Op :=
  [Op.acquirePageOp, Op.navigateOp, Op.waitForSlotOp, Op.incrementOp,
   Op.startCaptureOp, Op.pipeOp]

/-- Number of stages of `allGenericOps` attempted before the handler stops. -/
def genericAttempts (e : GenEnv) : Nat :=
  if !e.pageOk then 1 else if !e.navOk then 2 else if !e.slotOk then 3
  else if !e.captureOk then 5 else 6

/-- Whether some stage of `handleGenericStream` failed. -/
def genericFailed (e : GenEnv) : Bool :=
  !(e.pageOk && e.navOk && e.slotOk && e.captureOk && e.pipeOk)

/-- Wait budget passed to `waitForStreamSlot` by `handleChannelStream`
(src/main.js line 1043). -/
def channelSlotWaitMs : Nat := QUEUE_WAIT_MS

/-- Wait budget passed to `waitForStreamSlot` by `handleGenericStream`
(src/main.js line 1176). -/
def genericSlotWaitMs : Nat := QUEUE_WAIT_MS

/-- C5 (counterexample): on the all-success outcome the legacy handler's
stage sequence is not the channel handler's sequence with the channel
selection stage removed; in particular the legacy handler consults admission
control before starting capture, while the channel handler starts capture
before consulting admission control. -/
theorem claim5_counterexample :
    genericOps ⟨true, true, true, true, true⟩ ≠
        (channelOps ⟨true, true, true, true, true, true, true⟩).filter
          (fun o => o != Op.selectChannelOp) ∧
      (genericOps ⟨true, true, true, true, true⟩).indexOf Op.waitForSlotOp <
        (genericOps ⟨true, true, true, true, true⟩).indexOf Op.startCaptureOp ∧
      (channelOps ⟨true, true, true, true, true, true, true⟩).indexOf
          Op.startCaptureOp <
        (channelOps ⟨true, true, true, true, true, true, true⟩).indexOf
          Op.waitForSlotOp := by
  decide

/-- The amended C5 property for one pair of outcome vectors; see
`claim5_generic_reuse`. -/
def GenericReuseSpec (g : GenEnv) (c : ChanEnv) : Prop :=
  (genericOps g =
      allGenericOps.take (genericAttempts g) ++
        (if genericFailed g then [Op.cleanupOp] else [])) ∧
    allGenericOps.Perm
      (allChannelOps.filter
        (fun o => o != Op.selectChannelOp && o != Op.verifyPlaybackOp)) ∧
    genericSlotWaitMs = channelSlotWaitMs ∧
    (g.slotOk = false → g.pageOk = true → g.navOk = true →
      genericStatus g = 429) ∧
    (c.slotOk = false → c.pageOk = true → c.navOk = true → c.captureOk = true →
      channelStatus c = 429) ∧
    (genericOps g).indexOf Op.waitForSlotOp ≤
      (genericOps g).indexOf Op.startCaptureOp

instance (g : GenEnv) (c : ChanEnv) : Decidable (GenericReuseSpec g c) := by
  unfold GenericReuseSpec
  infer_instance

/-- C5 (amended): the legacy handler performs exactly the channel handler's
stages minus channel selection and playback verification (as a multiset),
reuses the same admission machinery — the same `QUEUE_WAIT_MS` wait budget
and a 429 response on admission timeout, in both handlers — and on any
outcome its operations are a prefix of its fixed stage order followed by
cleanup exactly on failure; but the stage order differs from the channel
handler's: the legacy handler acquires the admission slot before starting
capture. -/
theorem claim5_generic_reuse :
    ∀ (p n sl c pi cp cn cc csl cse cpb cpi : Bool),
      GenericReuseSpec ⟨p, n, sl, c, pi⟩ ⟨cp, cn, cc, csl, cse, cpb, cpi⟩ := by
  decide

theorem claim5_generic_reuse_witness :
    genericStatus ⟨true, true, false, true, true⟩ = 429 ∧
      channelStatus ⟨true, true, true, false, true, true, true⟩ = 429 := by
  have h := claim5_generic_reuse true true false true true
    true true true false true true true
  exact ⟨h.2.2.2.1 rfl rfl rfl, h.2.2.2.2.1 rfl rfl rfl rfl⟩

/-! ## Channel target resolver (src/main.js lines 226-297)

`tileClickDirectStrategy` evaluates, inside the page, a search over all
`img` elements: for each image whose `src` contains the channel slug it
walks up through the ancestors (up to but excluding `body`); a semantically
clickable ancestor (`A`, `BUTTON`, `role="button"`, or an `onclick`
attribute) with a visible bounding box returns that box's centre
immediately; otherwise the first ancestor seen with width and height above
20 and computed cursor `pointer` is remembered as the single fallback
candidate and used (if visible) when the walk ends.  If no image yields a
target the strategy returns failure with a fixed non-empty reason and clicks
nothing; otherwise it clicks once at the returned point.

Rects are modelled over `ℚ`; `scrollIntoView` does not change the modelled
bounding box (the embedding reads the same `rect` the source re-reads after
scrolling). -/

/-- A DOM bounding box as returned by `getBoundingClientRect`. -/
structure Rect where
  x : Rat
  y : Rat
  w : Rat
  h : Rat

/-- The attributes of a DOM ancestor element that the walk inspects. -/
structure DomElem where
  tag : String
  role : Option String
  hasOnclick : Bool
  rect : Rect
  cursor : String

/-- An image element: its `src` URL and its ancestor chain ordered from
`parentElement` upward, excluding `document.body`. -/
structure DomImg where
  src : String
  ancestors : List DomElem

/-- The semantic-clickability test of the walk (lines 248-253). -/
def isSemanticClickable (el : DomElem) : Prop :=
  el.tag = "A" ∨ el.tag = "BUTTON" ∨ el.role = some "button" ∨
    el.hasOnclick = true

instance (el : DomElem) : Decidable (isSemanticClickable el) := by
  unfold isSemanticClickable
  infer_instance

/-- The visibility re-check before a centre is returned (lines 256, 280). -/
def visibleRect (r : Rect) : Prop :=
  0 < r.w ∧ 0 < r.h

instance (r : Rect) : Decidable (visibleRect r) := by
  unfold visibleRect
  infer_instance

/-- The fallback-candidate test (lines 263-270): minimum visible size and a
pointer-style computed cursor. -/
def pointerFallbackCandidate (el : DomElem) : Prop :=
  20 < el.rect.w ∧ 20 < el.rect.h ∧ el.cursor = "pointer"

instance (el : DomElem) : Decidable (pointerFallbackCandidate el) := by
  unfold pointerFallbackCandidate
  infer_instance

/-- Centre of a bounding box (lines 257, 281). -/
def rectCenter (r : Rect) : Rat × Rat :=
  (r.x + r.w / 2, r.y + r.h / 2)

/-- One step of fallback recording: only the first candidate is kept
(`if (!pointerFallback)`, line 262). -/
def updateFallback (el : DomElem) (fb : Option DomElem) : Option DomElem :=
  match fb with
  | some f => some f
  | none => if pointerFallbackCandidate el then some el else none

/-- The upward ancestor walk of lines 241-283 for one image, carrying the
fallback candidate accumulator. -/
def walkUp : List DomElem → Option DomElem → Option (Rat × Rat)
  | [], none => none
  | [], some f =>
    if visibleRect f.rect then some (rectCenter f.rect) else none
  | el :: rest, fb =>
    if isSemanticClickable el ∧ visibleRect el.rect then
      some (rectCenter el.rect)
    else walkUp rest (updateFallback el fb)

/-- `img.src && img.src.includes(slug)` (line 239). -/
def srcMatches (img : DomImg) (slug : String) : Prop :=
  img.src ≠ "" ∧ slug.toList <:+: img.src.toList

instance (img : DomImg) (slug : String) : Decidable (srcMatches img slug) := by
  unfold srcMatches
  infer_instance

/-- The loop over all images (lines 238-285): the first matching image whose
walk yields a point determines the click target. -/
def findTileTarget (slug : String) : List DomImg → Option (Rat × Rat)
  | [] => none
  | img :: rest =>
    if srcMatches img slug then
      match walkUp img.ancestors none with
      | some pt => some pt
      | none => findTileTarget slug rest
    else findTileTarget slug rest

/-- Result of the strategy: success flag, failure reason, and the list of
pointer clicks issued. -/
structure SelectResult where
  success : Bool
  reason : String
  clicks : List (Rat × Rat)

/-- `tileClickDirectStrategy` (lines 226-297): evaluate the tile search; on
`null` return failure with the fixed reason and no click, otherwise click
once at the computed point and return success. -/
def tileClickDirectStrategy (imgs : List DomImg) (slug : String) :
    SelectResult :=
  match findTileTarget slug imgs with
  | none =>
    { success := false, reason := "Channel tile not found in page images.",
      clicks := [] }
  | some pt => { success := true, reason := "", clicks := [pt] }

/-- A point lying within a bounding box. -/
def insideRect (pt : Rat × Rat) (r : Rect) : Prop :=
  r.x ≤ pt.1 ∧ pt.1 ≤ r.x + r.w ∧ r.y ≤ pt.2 ∧ pt.2 ≤ r.y + r.h

theorem walkUp_semantic :
    ∀ (as1 : List DomElem) (a : DomElem) (as2 : List DomElem)
      (fb : Option DomElem),
      (∀ b ∈ as1, ¬(isSemanticClickable b ∧ visibleRect b.rect)) →
      isSemanticClickable a → visibleRect a.rect →
      walkUp (as1 ++ a :: as2) fb = some (rectCenter a.rect) := by
  intro as1
  induction as1 with
  | nil =>
    intro a as2 fb _ ha hv
    simp only [List.nil_append, walkUp]
    rw [if_pos ⟨ha, hv⟩]
  | cons b t ih =>
    intro a as2 fb hno ha hv
    simp only [List.cons_append, walkUp]
    rw [if_neg (hno b (List.mem_cons_self _ _))]
    exact ih a as2 _ (fun c hc => hno c (List.mem_cons_of_mem _ hc)) ha hv

theorem walkUp_locked :
    ∀ (as : List DomElem) (f : DomElem),
      (∀ b ∈ as, ¬ isSemanticClickable b) → visibleRect f.rect →
      walkUp as (some f) = some (rectCenter f.rect) := by
  intro as
  induction as with
  | nil =>
    intro f _ hv
    simp only [walkUp]
    rw [if_pos hv]
  | cons b t ih =>
    intro f hno hv
    simp only [walkUp]
    rw [if_neg (fun hc => hno b (List.mem_cons_self _ _) hc.1)]
    exact ih f (fun c hc => hno c (List.mem_cons_of_mem _ hc)) hv

theorem walkUp_fallback :
    ∀ (as1 : List DomElem) (a : DomElem) (as2 : List DomElem),
      (∀ b ∈ as1 ++ a :: as2, ¬ isSemanticClickable b) →
      (∀ b ∈ as1, ¬ pointerFallbackCandidate b) →
      pointerFallbackCandidate a →
      walkUp (as1 ++ a :: as2) none = some (rectCenter a.rect) := by
  intro as1
  induction as1 with
  | nil =>
    intro a as2 hnosem _ hcand
    simp only [List.nil_append, walkUp]
    rw [if_neg (fun hc => hnosem a (List.mem_cons_self _ _) hc.1)]
    have hupd : updateFallback a none = some a := by
      simp only [updateFallback]
      rw [if_pos hcand]
    rw [hupd]
    refine walkUp_locked as2 a (fun c hc => hnosem c (List.mem_cons_of_mem _ hc)) ?_
    exact ⟨lt_trans (by norm_num) hcand.1, lt_trans (by norm_num) hcand.2.1⟩
  | cons b t ih =>
    intro a as2 hnosem hnocand hcand
    simp only [List.cons_append, walkUp]
    rw [if_neg (fun hc => hnosem b (List.mem_cons_self _ _) hc.1)]
    have hupd : updateFallback b none = none := by
      simp only [updateFallback]
      rw [if_neg (hnocand b (List.mem_cons_self _ _))]
    rw [hupd]
    exact ih a as2 (fun c hc => hnosem c (List.mem_cons_of_mem _ hc))
      (fun c hc => hnocand c (List.mem_cons_of_mem _ hc)) hcand

theorem walkUp_none :
    ∀ (as : List DomElem),
      (∀ b ∈ as, ¬ isSemanticClickable b ∧ ¬ pointerFallbackCandidate b) →
      walkUp as none = none := by
  intro as
  induction as with
  | nil => intro _; rfl
  | cons b t ih =>
    intro hno
    simp only [walkUp]
    rw [if_neg (fun hc => (hno b (List.mem_cons_self _ _)).1 hc.1)]
    have hupd : updateFallback b none = none := by
      simp only [updateFallback]
      rw [if_neg (hno b (List.mem_cons_self _ _)).2]
    rw [hupd]
    exact ih (fun c hc => hno c (List.mem_cons_of_mem _ hc))

theorem findTileTarget_skip :
    ∀ (pre rest : List DomImg) (slug : String),
      (∀ im ∈ pre, ¬ srcMatches im slug) →
      findTileTarget slug (pre ++ rest) = findTileTarget slug rest := by
  intro pre
  induction pre with
  | nil => intro rest slug _; rfl
  | cons im t ih =>
    intro rest slug hno
    simp only [List.cons_append, findTileTarget]
    rw [if_neg (hno im (List.mem_cons_self _ _))]
    exact ih rest slug (fun c hc => hno c (List.mem_cons_of_mem _ hc))

theorem findTileTarget_none :
    ∀ (imgs : List DomImg) (slug : String),
      (∀ img ∈ imgs, srcMatches img slug →
        ∀ b ∈ img.ancestors,
          ¬ isSemanticClickable b ∧ ¬ pointerFallbackCandidate b) →
      findTileTarget slug imgs = none := by
  intro imgs
  induction imgs with
  | nil => intro slug _; rfl
  | cons img rest ih =>
    intro slug hno
    simp only [findTileTarget]
    by_cases hm : srcMatches img slug
    · rw [if_pos hm, walkUp_none img.ancestors (hno img (List.mem_cons_self _ _) hm)]
      exact ih slug (fun c hc => hno c (List.mem_cons_of_mem _ hc))
    · rw [if_neg hm]
      exact ih slug (fun c hc => hno c (List.mem_cons_of_mem _ hc))

/-- C6: for every page DOM and slug, (1) if the first slug-matching image has
an ancestor chain whose first semantically clickable ancestor with a visible
box is `a`, the resolver succeeds, clicks exactly once at the centre of
`a`'s box, and that point lies within the box; (2) if no ancestor of that
image is semantically clickable, the click target is the first ancestor of
the same walk that passes the minimum-size and pointer-cursor test; (3) if
no image matches the slug, or every matching image has neither kind of
target among its ancestors, the resolver fails with a non-empty reason and
issues no click. -/
theorem claim6_tile_resolver (imgs : List DomImg) (slug : String) :
    (∀ pre img post as1 a as2,
        imgs = pre ++ img :: post →
        (∀ im ∈ pre, ¬ srcMatches im slug) →
        srcMatches img slug →
        img.ancestors = as1 ++ a :: as2 →
        (∀ b ∈ as1, ¬(isSemanticClickable b ∧ visibleRect b.rect)) →
        isSemanticClickable a → visibleRect a.rect →
        (tileClickDirectStrategy imgs slug).success = true ∧
          (tileClickDirectStrategy imgs slug).clicks = [rectCenter a.rect] ∧
          insideRect (rectCenter a.rect) a.rect) ∧
      (∀ pre img post as1 a as2,
        imgs = pre ++ img :: post →
        (∀ im ∈ pre, ¬ srcMatches im slug) →
        srcMatches img slug →
        (∀ b ∈ img.ancestors, ¬ isSemanticClickable b) →
        img.ancestors = as1 ++ a :: as2 →
        (∀ b ∈ as1, ¬ pointerFallbackCandidate b) →
        pointerFallbackCandidate a →
        (tileClickDirectStrategy imgs slug).success = true ∧
          (tileClickDirectStrategy imgs slug).clicks = [rectCenter a.rect]) ∧
      ((∀ img ∈ imgs, srcMatches img slug →
          ∀ b ∈ img.ancestors,
            ¬ isSemanticClickable b ∧ ¬ pointerFallbackCandidate b) →
        (tileClickDirectStrategy imgs slug).success = false ∧
          (tileClickDirectStrategy imgs slug).reason ≠ "" ∧
          (tileClickDirectStrategy imgs slug).clicks = []) := by
  refine ⟨?_, ?_, ?_⟩
  · intro pre img post as1 a as2 heq hpre hm hanc hno ha hv
    subst heq
    have hf : findTileTarget slug (pre ++ img :: post) = some (rectCenter a.rect) := by
      rw [findTileTarget_skip pre _ slug hpre]
      simp only [findTileTarget]
      rw [if_pos hm, hanc, walkUp_semantic as1 a as2 none hno ha hv]
    unfold tileClickDirectStrategy
    rw [hf]
    refine ⟨rfl, rfl, ?_, ?_, ?_, ?_⟩
    · simp only [rectCenter]
      have := hv.1
      linarith
    · simp only [rectCenter]
      have := hv.1
      linarith
    · simp only [rectCenter]
      have := hv.2
      linarith
    · simp only [rectCenter]
      have := hv.2
      linarith
  · intro pre img post as1 a as2 heq hpre hm hnosem hanc hnocand hcand
    subst heq
    have hf : findTileTarget slug (pre ++ img :: post) = some (rectCenter a.rect) := by
      rw [findTileTarget_skip pre _ slug hpre]
      simp only [findTileTarget]
      rw [if_pos hm, hanc,
        walkUp_fallback as1 a as2 (hanc ▸ hnosem) hnocand hcand]
    unfold tileClickDirectStrategy
    rw [hf]
    exact ⟨rfl, rfl⟩
  · intro hno
    have hf : findTileTarget slug imgs = none := findTileTarget_none imgs slug hno
    unfold tileClickDirectStrategy
    rw [hf]
    refine ⟨rfl, ?_, rfl⟩
    intro h
    exact absurd h (by decide)

/-- A small non-clickable wrapper element. -/
def wDiv : DomElem :=
  { tag := "DIV", role := none, hasOnclick := false,
    rect := { x := 0, y := 0, w := 10, h := 10 }, cursor := "auto" }

/-- A semantically clickable anchor ancestor with a visible box. -/
def wAnchor : DomElem :=
  { tag := "A", role := none, hasOnclick := false,
    rect := { x := 4, y := 8, w := 100, h := 50 }, cursor := "auto" }

/-- A pointer-cursor fallback ancestor above the minimum size. -/
def wPointer : DomElem :=
  { tag := "DIV", role := none, hasOnclick := false,
    rect := { x := 5, y := 5, w := 30, h := 40 }, cursor := "pointer" }

/-- Image whose slug-matching tile sits under a clickable anchor. -/
def wImg1 : DomImg :=
  { src := "https://cdn.example/5bce8eb9e4b0a8faf3c14a94.png",
    ancestors := [wDiv, wAnchor] }

/-- Image whose tile has only a pointer-cursor fallback ancestor. -/
def wImg2 : DomImg :=
  { src := "https://cdn.example/5bce8eb9e4b0a8faf3c14a94.png",
    ancestors := [wDiv, wPointer] }

/-- Image matching the slug but with no usable target among its ancestors. -/
def wImg3 : DomImg :=
  { src := "https://cdn.example/5bce8eb9e4b0a8faf3c14a94.png",
    ancestors := [wDiv] }

/-- The ESPN channel slug used in the fixtures. -/
def wSlug : String := "5bce8eb9e4b0a8faf3c14a94"

theorem claim6_tile_resolver_witness :
    (tileClickDirectStrategy [wImg1] wSlug).clicks = [rectCenter wAnchor.rect] ∧
      (tileClickDirectStrategy [wImg2] wSlug).clicks = [rectCenter wPointer.rect] ∧
      (tileClickDirectStrategy [wImg3] wSlug).success = false ∧
      (tileClickDirectStrategy [wImg3] wSlug).clicks = [] := by
  have hm : srcMatches wImg1 wSlug := ⟨by decide, by decide⟩
  have hndiv : ¬ isSemanticClickable wDiv := by decide
  have hncand : ¬ pointerFallbackCandidate wDiv := fun hc => by
    have h1 : ¬ ((20 : Rat) < 10) := by norm_num
    exact h1 hc.1
  have h1 := (claim6_tile_resolver [wImg1] wSlug).1 [] wImg1 [] [wDiv] wAnchor []
    rfl (by simp) hm rfl
    (by
      intro b hb hc
      simp only [List.mem_singleton] at hb
      subst hb
      exact hndiv hc.1)
    (by left; rfl)
    ⟨by norm_num [wAnchor], by norm_num [wAnchor]⟩
  have h2 := (claim6_tile_resolver [wImg2] wSlug).2.1 [] wImg2 [] [wDiv] wPointer []
    rfl (by simp) ⟨by decide, by decide⟩
    (by
      intro b hb
      simp only [wImg2, List.mem_cons, List.mem_singleton, List.not_mem_nil] at hb
      rcases hb with rfl | rfl | h
      · exact hndiv
      · decide
      · exact absurd h (by simp))
    rfl
    (by
      intro b hb
      simp only [List.mem_singleton] at hb
      subst hb
      exact hncand)
    ⟨by norm_num [wPointer], by norm_num [wPointer], rfl⟩
  have h3 := (claim6_tile_resolver [wImg3] wSlug).2.2
    (by
      intro img himg _
      simp only [List.mem_singleton] at himg
      subst himg
      intro b hb
      simp only [wImg3, List.mem_singleton] at hb
      subst hb
      exact ⟨hndiv, hncand⟩)
  exact ⟨h1.2.1, h2.2, h3.1, h3.2.2⟩

/-! ## Channel configuration and routes (src/main.js lines 500-574, 746-760,
843-870)

`CHANNELS` is a JavaScript object literal; `Object.keys` enumerates its
own properties with integer-like keys first in ascending numeric order,
then string keys in insertion order, so the embedded list is stated in that
enumeration order. -/

/-- URL of the channel-grid page shared by every configured channel. -/
def kayoBrowseUrl : String := "https://kayosports.com.au/browse"

/-- One configured channel: source page URL, DOM-matching slug, display
name, and guide number. -/
structure Channel where
  url : String
  slug : String
  name : String
  number : Nat
deriving DecidableEq

/-- The channel mapping (src/main.js lines 501-574), keyed by channel key,
in JavaScript property-enumeration order. -/
def CHANNELS : List (String × Channel) :=
  [("503", ⟨kayoBrowseUrl, "5bcef93ae4b0a8faf3c14ada", "Fox Sports 503", 503⟩),
   ("505", ⟨kayoBrowseUrl, "5bcefaf5e4b0cb6f1d7f46fc", "Fox Sports 505", 505⟩),
   ("506", ⟨kayoBrowseUrl, "5bcefc4ae4b0a8faf3c14aed", "Fox Sports 506", 506⟩),
   ("507", ⟨kayoBrowseUrl, "5bcefc6be4b0cb6f1d7f4703", "Fox Sports 507", 507⟩),
   ("espn", ⟨kayoBrowseUrl, "5bce8eb9e4b0a8faf3c14a94", "ESPN", 509⟩),
   ("footy", ⟨kayoBrowseUrl, "5bcefacfe4b0a8faf3c14ae2", "Fox Footy", 504⟩),
   ("cricket", ⟨kayoBrowseUrl, "5bcef5ede4b0a8faf3c14acf", "Fox Cricket", 501⟩),
   ("league", ⟨kayoBrowseUrl, "5bcef901e4b0cb6f1d7f46f3", "Fox League", 502⟩),
   ("news", ⟨kayoBrowseUrl, "5bcefccee4b0a8faf3c14aef", "Fox Sports News", 500⟩),
   ("racing", ⟨kayoBrowseUrl, "5ccacc4ae4b020d0a4eb3979", "Racing.com", 529⟩),
   ("ufc", ⟨kayoBrowseUrl, "66d524f4e4b06b17c2bfdd58", "Main Event UFC", 523⟩),
   ("espn2", ⟨kayoBrowseUrl, "5bcef583e4b0a8faf3c14acb", "ESPN2", 510⟩)]

/-- The configured channel keys, in enumeration order. -/
def channelKeys : List String := CHANNELS.map Prod.fst

/-- Body of the 404 response of `/stream/:channelName` (src/main.js
line 865): the failure message followed by the comma-joined channel keys. -/
def notFoundBody : String :=
  "Channel not found. Available channels: " ++ String.intercalate ", " channelKeys

/-- JavaScript `String.prototype.toLowerCase` restricted to the characters
that occur in channel keys: lowercase each character. -/
def strToLower (s : String) : String :=
  String.mk (s.data.map Char.toLower)

/-- Property names every JavaScript object literal inherits from
`Object.prototype` (Node/V8).  Each of these holds a truthy value (a
function, or for `__proto__` the prototype object itself), so
`CHANNELS[name]` yields a truthy non-channel value for each of them and the
route's `if (!channel)` test does not fire. -/
def objectPrototypeProps : List String :=
  ["constructor", "__proto__", "hasOwnProperty", "isPrototypeOf",
   "propertyIsEnumerable", "toLocaleString", "toString", "valueOf",
   "__defineGetter__", "__defineSetter__", "__lookupGetter__",
   "__lookupSetter__"]

/-- Result of the JavaScript property access `CHANNELS[k]` as observed by
the route's `if (!channel)` test: an own property holding a configured
channel, a truthy value inherited from `Object.prototype`, or `undefined`
(falsy). -/
inductive PropAccess where
  | ownChannel (ch : Channel)
  | inherited
  | undef
deriving DecidableEq

/-- JavaScript property access `CHANNELS[k]`: own properties (the configured
channels) shadow the prototype chain; otherwise the names of
`objectPrototypeProps` resolve to truthy inherited values; every other key
yields `undefined`. -/
def channelsAccess (k : String) : PropAccess :=
  match List.lookup k CHANNELS with
  | some ch => PropAccess.ownChannel ch
  | none =>
    if k ∈ objectPrototypeProps then PropAccess.inherited else PropAccess.undef

/-- The channel lookup of the route handler (src/main.js lines 861-862):
the path parameter is lowercased and `CHANNELS` is accessed with it. -/
def streamRouteLookup (channelName : String) : PropAccess :=
  channelsAccess (strToLower channelName)

/-- The `/stream/:channelName` route handler (src/main.js lines 860-870),
with the admission state and the pages-in-use set threaded explicitly: a
falsy access responds 404 with `notFoundBody` and returns both states
untouched; any truthy access — a configured channel, but also a value
inherited from `Object.prototype` — is passed on to `handleChannelStream`
(`Sum.inr`). -/
def streamRoute (channelName : String) (adm : AdmSys) (pages : List Nat) :
    (Nat × String × AdmSys × List Nat) ⊕ PropAccess :=
  match streamRouteLookup channelName with
  | PropAccess.undef => Sum.inl (404, notFoundBody, adm, pages)
  | PropAccess.ownChannel ch => Sum.inr (PropAccess.ownChannel ch)
  | PropAccess.inherited => Sum.inr PropAccess.inherited

theorem lookup_eq_of_mem {k : String} {ch : Channel} :
    ∀ l : List (String × Channel), (l.map Prod.fst).Nodup → (k, ch) ∈ l →
      List.lookup k l = some ch := by
  intro l
  induction l with
  | nil =>
    intro _ h
    exact absurd h (List.not_mem_nil _)
  | cons a t ih =>
    intro hnd hmem
    rcases List.mem_cons.mp hmem with heq | ht
    · rw [← heq]
      simp [List.lookup]
    · have ha : a.1 ∉ t.map Prod.fst := by
        simp only [List.map_cons, List.nodup_cons] at hnd
        exact hnd.1
      have hk : ¬ (k == a.1) = true := by
        intro hkb
        have hk2 : k = a.1 := by simpa using hkb
        exact ha (hk2 ▸ List.mem_map_of_mem Prod.fst ht)
      rcases a with ⟨a1, a2⟩
      simp only [List.lookup, hk, Bool.false_eq_true, if_false]
      exact ih (by simp only [List.map_cons, List.nodup_cons] at hnd; exact hnd.2) ht

/-- An admission state with no activity, for the route witnesses. -/
def admZero : AdmSys :=
  { active := 0, queue := [], stamp := 0, phases := fun _ => Phase.beforeCheck }

/-- C7 (refuting evaluation): `"constructor"` and `"__proto__"` are not
configured channel keys, yet because `CHANNELS[channelName]` walks the
prototype chain the route does not take its 404 early return for them (in
any letter case): it passes the truthy inherited value to
`handleChannelStream`, which acquires a browser page and only then fails
navigating to `channel.url = undefined` — a 500 after the page pool was
touched, where the claim demands a 404 with both states untouched.  The
last conjunct evaluates that pipeline outcome (page acquired, navigation
fails, cleanup); for ordinary unknown keys the 404 branch behaves as the
claim says. -/
theorem claim7_prototype_leak :
    "constructor" ∉ channelKeys ∧
      "__proto__" ∉ channelKeys ∧
      streamRoute "constructor" admZero [] = Sum.inr PropAccess.inherited ∧
      streamRoute "__proto__" admZero [] = Sum.inr PropAccess.inherited ∧
      streamRoute "CONSTRUCTOR" admZero [] = Sum.inr PropAccess.inherited ∧
      channelOps ⟨true, false, true, true, true, true, true⟩ =
        [Op.acquirePageOp, Op.navigateOp, Op.cleanupOp] ∧
      streamRoute "unknownkey" admZero [] =
        Sum.inl (404, notFoundBody, admZero, []) := by
  exact ⟨by decide, by decide, rfl, rfl, rfl, by decide, rfl⟩

/-- C10: channel lookup is case-insensitive: the path key is lowercased
before the mapping is consulted, and own properties shadow the prototype
chain, so any key whose lowercasing equals a configured key is served as
that channel rather than receiving a 404. -/
theorem claim10_case_insensitive_lookup (s k : String) (ch : Channel)
    (adm : AdmSys) (pages : List Nat) (h1 : strToLower s = k)
    (h2 : (k, ch) ∈ CHANNELS) :
    streamRouteLookup s = PropAccess.ownChannel ch ∧
      streamRoute s adm pages = Sum.inr (PropAccess.ownChannel ch) := by
  have hl : streamRouteLookup s = PropAccess.ownChannel ch := by
    unfold streamRouteLookup channelsAccess
    rw [h1, lookup_eq_of_mem CHANNELS (by decide) h2]
  exact ⟨hl, by simp only [streamRoute, hl]⟩

theorem claim10_case_insensitive_lookup_witness :
    streamRouteLookup "ESPN" =
      PropAccess.ownChannel ⟨kayoBrowseUrl, "5bce8eb9e4b0a8faf3c14a94", "ESPN", 509⟩ :=
  (claim10_case_insensitive_lookup "ESPN" "espn"
    ⟨kayoBrowseUrl, "5bce8eb9e4b0a8faf3c14a94", "ESPN", 509⟩ admZero []
    (by decide) (by decide)).1

/-! ## Lineup and playlist (src/main.js lines 746-760 and 843-857) -/

/-- One entry of the `/lineup.json` response; the structure has exactly the
three fields of the emitted JSON objects. -/
structure LineupItem where
  GuideNumber : String
  GuideName : String
  URL : String
deriving DecidableEq

/-- The `/lineup.json` body (src/main.js lines 750-757): one item per
configured channel, in mapping order. -/
def lineup (protocol host : String) : List LineupItem :=
  CHANNELS.map fun p =>
    { GuideNumber := toString p.2.number, GuideName := p.2.name,
      URL := protocol ++ "://" ++ host ++ "/stream/" ++ p.1 }

/-- Stable insertion of one channel into a list sorted by guide number,
mirroring the comparator `(a, b) => CHANNELS[a].number - CHANNELS[b].number`. -/
def insertByNumber (p : String × Channel) :
    List (String × Channel) → List (String × Channel)
  | [] => [p]
  | q :: rest =>
    if p.2.number ≤ q.2.number then p :: q :: rest
    else q :: insertByNumber p rest

/-- The key sort of the playlist route (src/main.js lines 847-849). -/
def sortChannelsByNumber : List (String × Channel) → List (String × Channel)
  | [] => []
  | p :: rest => insertByNumber p (sortChannelsByNumber rest)

/-- One `#EXTINF` entry of `/playlist.m3u` (src/main.js lines 851-852). -/
def m3uEntry (protocol host : String) (p : String × Channel) : String :=
  "#EXTINF:-1 channel-id=\x22kayo-" ++ p.1 ++ "\x22 tvg-chno=\x22" ++
    toString p.2.number ++ "\x22 tvg-name=\x22" ++ p.2.name ++ "\x22," ++
    p.2.name ++ "\n" ++ protocol ++ "://" ++ host ++ "/stream/" ++ p.1

/-- The channel entries of `/playlist.m3u`, in emitted order. -/
def playlistEntries (protocol host : String) : List String :=
  (sortChannelsByNumber CHANNELS).map (m3uEntry protocol host)

/-- The guide numbers of the playlist entries, in emitted order. -/
def playlistNumbers : List Nat :=
  (sortChannelsByNumber CHANNELS).map fun p => p.2.number

/-- C9: `/lineup.json` has exactly one item per configured channel, each
item carrying the channel's guide number rendered as a string, its display
name, and a URL pointing at `/stream/` followed by the channel key; and the
channel entries of `/playlist.m3u` are sorted ascending by guide number. -/
theorem claim9_lineup_and_playlist (protocol host : String) :
    (lineup protocol host).length = CHANNELS.length ∧
      (∀ item ∈ lineup protocol host, ∃ p ∈ CHANNELS,
        item.GuideNumber = toString p.2.number ∧ item.GuideName = p.2.name ∧
          item.URL = protocol ++ "://" ++ host ++ "/stream/" ++ p.1) ∧
      playlistNumbers.Pairwise (fun a b => a ≤ b) ∧
      (playlistEntries protocol host).length = CHANNELS.length := by
  refine ⟨by simp [lineup], ?_, by decide,
    by simp only [playlistEntries, List.length_map]; decide⟩
  intro item hitem
  rw [lineup, List.mem_map] at hitem
  obtain ⟨p, hp, rfl⟩ := hitem
  exact ⟨p, hp, rfl, rfl, rfl⟩

theorem claim9_lineup_and_playlist_witness :
    (lineup "http" "localhost:5589").length = CHANNELS.length ∧
      (playlistEntries "http" "localhost:5589").length = CHANNELS.length := by
  have h := claim9_lineup_and_playlist "http" "localhost:5589"
  exact ⟨h.1, h.2.2.2⟩

/-! ## Transcoder exit handler (src/main.js lines 194-214) -/

/-- The `exit` handler installed by `spawnMpegTsTranscoder` on the ffmpeg
subprocess: it is a no-op while `shuttingDown` is set (cleanup already ran
`kill`) or when the terminating signal is the `SIGTERM` cleanup itself
sends; otherwise it raises an error for a non-null non-zero exit code, or
for any other non-null signal.  Returns whether `onError` is invoked. -/
def ffmpegExitRaisesError (shuttingDown : Bool) (code : Option Int)
    (sig : Option String) : Bool :=
  if shuttingDown then false
  else if sig = some "SIGTERM" then false
  else if (match code with | some c => c != 0 | none => false) then true
  else if sig.isSome then true
  else false

/-- C8: the transcoder exit handler raises an error if and only if the exit
is unexpected.  Under the Node contract that `exit` reports either a code or
a signal but not both, no error is raised when the owning session already
began shutdown, when the signal is the `SIGTERM` cleanup sends, or when the
exit code is 0; an error is raised exactly for a non-zero exit code or for
being killed by any other signal. -/
theorem claim8_ffmpeg_exit_error (shuttingDown : Bool) (code : Option Int)
    (sig : Option String) (hx : code = none ∨ sig = none) :
    ffmpegExitRaisesError shuttingDown code sig = true ↔
      shuttingDown = false ∧ sig ≠ some "SIGTERM" ∧ code ≠ some 0 ∧
        (code.isSome ∨ sig.isSome) := by
  rcases hx with h | h
  · subst h
    cases shuttingDown
    · rcases sig with _ | s
      · simp [ffmpegExitRaisesError]
      · by_cases hs : s = "SIGTERM" <;>
          simp [ffmpegExitRaisesError, hs]
    · simp [ffmpegExitRaisesError]
  · subst h
    cases shuttingDown
    · rcases code with _ | c
      · simp [ffmpegExitRaisesError]
      · by_cases hc : c = 0 <;>
          simp [ffmpegExitRaisesError, hc]
    · simp [ffmpegExitRaisesError]

theorem claim8_ffmpeg_exit_error_witness :
    ffmpegExitRaisesError false (some 1) none = true :=
  (claim8_ffmpeg_exit_error false (some 1) none (Or.inr rfl)).mpr
    ⟨rfl, by simp, by simp, Or.inl rfl⟩

end CC4C
